import Mathlib

/-!
Verification of the easydl download coordinator (src/lib).

Shallow embedding conventions:
* JavaScript numbers carrying byte counts, chunk indices, timestamps and
  HTTP status codes are modelled as `ℕ`/`ℤ` (all values involved stay far
  below 2^53, where JS float arithmetic on integers is exact).
* A JS real-number comparison `a / b < c` with integer operands is modelled
  by the exact integer comparison `a < c * b`; `Math.floor`/`Math.ceil` of
  nonnegative quotients are modelled by integer division.
* A JS division whose result can be non-finite (`Infinity`/`NaN`, i.e. a
  division by zero) is modelled as an `Option`, `none` standing for the
  non-finite outcome.
* Code that throws is modelled with `Option`/`Except`.
* The filesystem and the network are external collaborators: they enter the
  model as explicit state (file-name ↦ size maps) and as oracle inputs
  (HTTP responses, stat results, clock readings).
-/

namespace EasyDl

/-! ## Chunk planner: `_calcRanges` (src/lib/index.js:346-378)

The planner reads `this.size` and the options `connections` and `chunkSize`
(already resolved and floored to an integer, src/lib/index.js:347-349).
`effChunkSize`/`extraSize` model lines 350-354, `numChunks` line 355-357,
`rawLen` the first loop (lines 359-366), `chunkLen` adds the tail rebalance
(lines 367-371) and `chunkStart`/`_calcRanges` the final cumulative-sum loop
(lines 372-377).  The guard `effChunkSize = 0` models the `RangeError`
thrown by `Array(n)` when `n` is `Infinity`/`NaN` (division by a zero
chunk size at line 356-357). -/

/-- Effective chunk size: lines 350-352.  `size / chunkSize < connections`
is exact real division in JS, i.e. `size < connections * chunkSize`. -/
def effChunkSize (size connections cs0 : ℕ) : ℕ :=
  if size < connections * cs0 then size / connections else cs0

/-- Extra bytes distributed over the first chunks: lines 350-354. -/
def extraSize (size connections cs0 : ℕ) : ℕ :=
  if size < connections * cs0 then size % connections else 0

/-- Number of planned chunks: lines 355-357. -/
def numChunks (size connections cs0 : ℕ) : ℕ :=
  if extraSize size connections cs0 ≠ 0 then
    size / effChunkSize size connections cs0
  else
    (size + effChunkSize size connections cs0 - 1) / effChunkSize size connections cs0

/-- Chunk length before the tail rebalance: lines 359-366. -/
def rawLen (size connections cs0 : ℕ) (i : ℕ) : ℤ :=
  (if i < numChunks size connections cs0 - 1 then
     (effChunkSize size connections cs0 : ℤ)
   else
     (size : ℤ) - ((numChunks size connections cs0 : ℤ) - 1) *
       (effChunkSize size connections cs0 : ℤ) - (extraSize size connections cs0 : ℤ)) +
  (if i < extraSize size connections cs0 then 1 else 0)

/-- Bytes moved by the tail rebalance, `Math.floor(chunkSize / 2 - chunks[n-1])`
(line 368); for an integer `chunks[n-1]` this is `⌊chunkSize / 2⌋ - chunks[n-1]`. -/
def tailDiff (size connections cs0 : ℕ) : ℤ :=
  ((effChunkSize size connections cs0 / 2 : ℕ) : ℤ) -
    rawLen size connections cs0 (numChunks size connections cs0 - 1)

/-- Final chunk length: lines 367-371.  `chunks[n-1] < chunkSize / 2` with
real division is `2 * chunks[n-1] < chunkSize`. -/
def chunkLen (size connections cs0 : ℕ) (i : ℕ) : ℤ :=
  if 1 < numChunks size connections cs0 ∧
     2 * rawLen size connections cs0 (numChunks size connections cs0 - 1) <
       (effChunkSize size connections cs0 : ℤ) then
    if i = numChunks size connections cs0 - 1 then
      rawLen size connections cs0 i + tailDiff size connections cs0
    else if i = numChunks size connections cs0 - 2 then
      rawLen size connections cs0 i - tailDiff size connections cs0
    else rawLen size connections cs0 i
  else rawLen size connections cs0 i

/-- Running offset `sum` of the last loop (lines 372-377). -/
def chunkStart (size connections cs0 : ℕ) (i : ℕ) : ℤ :=
  ∑ j ∈ Finset.range i, chunkLen size connections cs0 j

/-- The planner `_calcRanges` (lines 346-378): `none` models the
`RangeError` thrown by `Array(n)` for a non-finite `n` (zero effective
chunk size); otherwise the list of inclusive ranges `[sum, sum+chunk-1]`. -/
def _calcRanges (size connections cs0 : ℕ) : Option (List (ℤ × ℤ)) :=
  if effChunkSize size connections cs0 = 0 then none
  else
    some ((List.range (numChunks size connections cs0)).map fun i =>
      (chunkStart size connections cs0 i,
       chunkStart size connections cs0 i + chunkLen size connections cs0 i - 1))

/-! ### Generic facts about prefix sums of positive length tables -/

/-- Offset table of a list of chunk lengths. -/
def partStart (L : ℕ → ℤ) (i : ℕ) : ℤ := ∑ j ∈ Finset.range i, L j

/-! ## Resume scanner: `_syncJobs` (src/lib/index.js:315-345) -/

/-- One `partsProgress` slot (lines 318-322; also the mutable per-chunk
progress used by the reporter).  `speed` is an `Option`: `none` models a
non-finite JS number (`Infinity`/`NaN`). -/
structure PartProgress where
  speed : Option ℚ
  bytes : ℤ
  percentage : ℚ
  deriving Repr, DecidableEq

/-- State threaded through the scanner loop.  `disk i` is the `fileStats`
view of `P.$$<i>` (its size when the file exists); the scanner only reads
it (line 323) — it issues no unlink or rename. -/
structure SyncState where
  disk : ℕ → Option ℕ
  jobs : List ℕ
  parts : List PartProgress
  totalBytes : ℤ
  totalPct : ℚ
  isResume : Bool

/-- One iteration of the `_syncJobs` loop (lines 317-344) for chunk `i`:
initialise `partsProgress[i]` (318-322), stat `P.$$<i>` (323); absent →
enqueue (324-327); oversize → throw, payload `(expected, got)` (329-330);
exact size → mark complete (331-340); undersized → enqueue (341-343). -/
def syncChunk (size : ℤ) (i : ℕ) (range : ℤ × ℤ) (st : SyncState) :
    Except (ℤ × ℕ) SyncState :=
  let st0 := { st with parts := st.parts ++ [({ speed := some 0, bytes := 0, percentage := 0 } : PartProgress)] }
  match st.disk i with
  | none => .ok { st0 with jobs := st0.jobs ++ [i] }
  | some sz =>
      let len := range.2 - range.1 + 1
      if (sz : ℤ) > len then .error (len, sz)
      else if (sz : ℤ) = len then
        .ok { st0 with
          parts := st.parts ++ [({ speed := some 0, bytes := len, percentage := 100 } : PartProgress)],
          totalBytes := st0.totalBytes + len,
          totalPct := if size ≠ 0 then 100 * (st0.totalBytes + len) / size else 0,
          isResume := true }
      else .ok { st0 with jobs := st0.jobs ++ [i] }

/-- The scanner loop from chunk index `i` over the remaining ranges. -/
def syncJobsFrom (size : ℤ) (i : ℕ) :
    List (ℤ × ℤ) → SyncState → Except (ℤ × ℕ) SyncState
  | [], st => .ok st
  | r :: rest, st => do
      let st' ← syncChunk size i r st
      syncJobsFrom size (i + 1) rest st'

/-- `_syncJobs` (lines 315-345) on a fresh session state. -/
def _syncJobs (size : ℤ) (ranges : List (ℤ × ℤ)) (disk : ℕ → Option ℕ) :
    Except (ℤ × ℕ) SyncState :=
  syncJobsFrom size 0 ranges
    { disk := disk, jobs := [], parts := [], totalBytes := 0, totalPct := 0, isResume := false }

/-! ## Chunk worker, one attempt: `_download` (src/lib/index.js:226-313) -/

/-- What one HTTP attempt delivered: the response status, the parsed
`content-length` header if present, and the number of body bytes actually
piped into the `$PART` file before the stream closed. -/
structure AttemptResponse where
  statusCode : ℕ
  contentLength : Option ℕ
  bytesDelivered : ℕ
  deriving Repr, DecidableEq

/-- Expected byte count of an attempt, `size = (range && range[1] - range[0] + 1) || 0`
(line 243). -/
def expectedSize (range : Option (ℤ × ℤ)) : ℤ :=
  match range with
  | some p => p.2 - p.1 + 1
  | none => 0

/-- The `error` variable as set by the `ready` handler (lines 253-271):
bad status (254-258); content-length mismatch, with
`contentLength = (headers["content-length"] && parseInt(...)) || 0`
(259-266); range request not answered with 206 (267-271). -/
def attemptError (range : Option (ℤ × ℤ)) (r : AttemptResponse) : Option String :=
  if r.statusCode ≠ 206 ∧ r.statusCode ≠ 200 then
    some ("Got HTTP Status code " ++ toString r.statusCode)
  else if expectedSize range ≠ 0 ∧ r.contentLength.getD 0 ≠ 0 ∧
      expectedSize range ≠ (r.contentLength.getD 0 : ℤ) then
    some ("Expecting content length of " ++ toString (expectedSize range) ++
      " but got " ++ toString (r.contentLength.getD 0))
  else if range.isSome ∧ r.statusCode ≠ 206 then
    some ("Expecting HTTP Status code 206 but got " ++ toString r.statusCode)
  else none

/-- Sizes of the two on-disk artifacts of one chunk after one attempt. -/
structure AttemptDisk where
  part : Option ℕ
  completed : Option ℕ
  deriving Repr, DecidableEq

/-- Filesystem outcome of one attempt that ran to `wait()` without the
session being destroyed (lines 244-303): `createWriteStream` truncates
`$PART` (246) and the pipe writes the delivered bytes (293); if `error` is
still null, `$PART` is renamed onto `P.$$<id>` (297-302).  The rename is
guarded only by the `ready`-handler checks — the byte count actually
written is never compared with the range length. -/
def runAttempt (range : Option (ℤ × ℤ)) (r : AttemptResponse) : AttemptDisk :=
  if (attemptError range r).isNone then
    { part := none, completed := some r.bytesDelivered }
  else
    { part := some r.bytesDelivered, completed := none }

/-! ## Chunk worker: the retry loop of `_download` and `destroy()` -/

/-- Observable actions of one chunk worker and of `destroy()`. -/
inductive WorkerEv where
  | attemptStart (k : ℕ)
  | retryEv (k : ℕ)
  | sleep (ms : ℕ)
  | fatalError
  | closeEv
  | completed
  deriving Repr, DecidableEq

/-- `this._attempts = Array(maxRetry).fill(1).map((v, i) => v + i)`
(lines 106-108): the list `[1, 2, ..., maxRetry]`. -/
def _attempts (maxRetry : ℕ) : List ℕ :=
  (List.range maxRetry).map fun i => 1 + i

/-- Trace of the retry loop `for (let attempt of this._attempts)` (lines
227-313).  `outcome k` is the `error` variable after attempt `k`'s
`wait()` (`none` = clean headers), `destroyedAt k` the value of
`this._destroyed` observed at the post-wait checkpoint (line 295) — it can
become true concurrently via `destroy()` — and `destroyedFinal` its value
when the loop exhausts.  An exhausted loop emits the fatal error
unconditionally (line 312) and then calls `this.destroy()` (313), which
emits `close` only if the session was not already destroyed. -/
def downloadLoop (retryDelay retryBackoff : ℕ) (outcome : ℕ → Option String)
    (destroyedAt : ℕ → Bool) (destroyedFinal : Bool) : List ℕ → List WorkerEv
  | [] => WorkerEv.fatalError :: (if destroyedFinal then [] else [WorkerEv.closeEv])
  | k :: rest =>
      WorkerEv.attemptStart k ::
        (if destroyedAt k then []
         else
           match outcome k with
           | none => [WorkerEv.completed]
           | some _ =>
               WorkerEv.retryEv k ::
                 WorkerEv.sleep (retryDelay + retryBackoff * (k - 1)) ::
                   downloadLoop retryDelay retryBackoff outcome destroyedAt destroyedFinal rest)

/-- The destroyed flag of a session. -/
structure DestroyState where
  destroyed : Bool
  deriving Repr, DecidableEq

/-- `destroy()` (lines 490-503): a no-op when already destroyed (491-492);
otherwise it sets the flag, aborts every live request (494-501, no
events), and emits `close` (502). -/
def destroyCall (s : DestroyState) : DestroyState × List WorkerEv :=
  if s.destroyed then (s, [])
  else ({ destroyed := true }, [WorkerEv.closeEv])

/-- Events emitted by `n` successive `destroy()` calls from state `s`. -/
def destroyCalls : ℕ → DestroyState → List WorkerEv
  | 0, _ => []
  | n + 1, s => (destroyCall s).2 ++ destroyCalls n (destroyCall s).1

/-! ## Redirect resolver: `followRedirect` (src/lib/index.js:591-618) -/

/-- The response headers consulted by the resolver. -/
structure HeadHeaders where
  location : Option String
  deriving Repr, DecidableEq

/-- A HEAD probe result: `requestHeader` yields a status code and,
possibly, headers. -/
structure HeadResult where
  statusCode : ℕ
  headers : Option HeadHeaders
  deriving Repr, DecidableEq

/-- What one iteration of the `followRedirect` loop decides. -/
inductive RedirectStep where
  | terminal (address : String) (headers : Option HeadHeaders)
  | redirect (nextAddress : String)
  | fallback (address : String)
  | failed (msg : String)
  deriving Repr, DecidableEq

/-- One iteration of the `while (true)` loop of `followRedirect`
(lines 594-617), after the visited-set check, branching on the HEAD
response for `currentAddress`: 200/206 → done (599-604); strictly between
300 and 400 → follow `location` or throw (605-611); anything else → return
the current URL if at least one hop happened, else throw (612-616). -/
def followRedirectStep (address currentAddress : String) (r : HeadResult) : RedirectStep :=
  if r.statusCode = 200 ∨ r.statusCode = 206 then
    .terminal currentAddress r.headers
  else if 300 < r.statusCode ∧ r.statusCode < 400 then
    match r.headers with
    | none => .failed "No header data"
    | some h =>
        match h.location with
        | none =>
            .failed ("HTTP Response code is " ++ toString r.statusCode ++
              " but \"location\" is not in headers")
        | some loc => .redirect loc
  else if currentAddress ≠ address then .fallback currentAddress
  else .failed ("Got HTTP Response code " ++ toString r.statusCode)

/-! ## Progress reporter: `_report` (src/lib/index.js:199-225) -/

/-- A speed reference snapshot `{ bytes, time }` (lines 63-64, 201). -/
structure SpeedRef where
  bytes : ℤ
  time : ℤ
  deriving Repr, DecidableEq

/-- `this.totalProgress` (line 68). -/
structure TotalProgress where
  speed : Option ℚ
  bytes : ℤ
  percentage : ℚ
  deriving Repr, DecidableEq

/-- The reporter's mutable state. -/
structure ReportState where
  partsSpeedRef : ℕ → Option SpeedRef
  speedRef : SpeedRef
  partsProgress : ℕ → PartProgress
  totalProgress : TotalProgress

/-- The payload of an emitted `progress` event (lines 220-223). -/
structure ProgressPayload where
  total : TotalProgress
  details : ℕ → PartProgress

/-- The JS speed computation `1000 * Δbytes / Δtime` (lines 205-209,
214-216): a division with no guard on `Δtime = 0`; `none` models the
non-finite result (`Infinity` or `NaN`) of a zero division. -/
def jsSpeed (deltaBytes deltaTime : ℤ) : Option ℚ :=
  if deltaTime = 0 then none
  else some (1000 * (deltaBytes : ℚ) / (deltaTime : ℚ))

/-- `_report(id, force)` (lines 199-225).  `now` models `Date.now()` (the
reference created at line 201 when absent uses the same tick, which JS
permits).  Returns the updated state and the `progress` payload when the
second window fires and a listener is attached (219-223). -/
def _report (reportInterval : ℤ) (hasListener : Bool) (st : ReportState)
    (id : ℕ) (force : Bool) (now : ℤ) : ReportState × Option ProgressPayload :=
  let ref := (st.partsSpeedRef id).getD { bytes := 0, time := now }
  let st0 := { st with
    partsSpeedRef := fun j => if j = id then some ref else st.partsSpeedRef j }
  let part := st0.partsProgress id
  let st1 :=
    if force ∨ reportInterval < now - ref.time then
      { st0 with
        partsProgress := fun j =>
          if j = id then { part with speed := jsSpeed (part.bytes - ref.bytes) (now - ref.time) }
          else st0.partsProgress j,
        partsSpeedRef := fun j =>
          if j = id then some { bytes := part.bytes, time := now } else st0.partsSpeedRef j }
    else st0
  if force ∨ reportInterval < now - st1.speedRef.time then
    let st2 := { st1 with
      totalProgress := { st1.totalProgress with
        speed := jsSpeed (st1.totalProgress.bytes - st1.speedRef.bytes)
          (now - st1.speedRef.time) },
      speedRef := { bytes := st1.totalProgress.bytes, time := now } }
    (st2,
      if hasListener then some { total := st2.totalProgress, details := st2.partsProgress }
      else none)
  else (st1, none)

/-! ## Destination resolver and start: `_ensureDest` (112-129), `_start` (379-438) -/

/-- The `existBehavior` option (line 92, §destination resolver). -/
inductive ExistBehavior where
  | new_file
  | overwrite
  | ignore
  deriving Repr, DecidableEq

/-- The slice of a `fileStats` result that `_ensureDest` consults. -/
structure FsStat where
  isDirectory : Bool
  deriving Repr, DecidableEq

/-- `_ensureDest` (lines 112-129): the `while (this.savedFilePath)` loop.
`stat` is the filesystem oracle; `joinBase p` models
`path.join(p, path.posix.basename(url))` (line 116) and `copyName p`
models the `(COPY)` renaming (119-120).  The loop can run unboundedly (the
`new_file` policy may chase `(COPY)` names), so the model takes fuel; at
fuel 0 the current value is returned, and every claim below supplies
enough fuel for its execution to settle. -/
def _ensureDest (stat : String → Option FsStat) (joinBase copyName : String → String)
    (behavior : ExistBehavior) : ℕ → Option String → Option String
  | 0, p => p
  | _ + 1, none => none
  | fuel + 1, some p =>
      match stat p with
      | some st =>
          if st.isDirectory then
            _ensureDest stat joinBase copyName behavior fuel (some (joinBase p))
          else
            match behavior with
            | .new_file => _ensureDest stat joinBase copyName behavior fuel (some (copyName p))
            | .ignore => _ensureDest stat joinBase copyName behavior fuel none
            | .overwrite => some p
      | none => some p

/-- The headers `_start` consults after `_getHeaders` (lines 392-396):
presence of `content-length` (a non-empty header string is truthy in JS,
so presence is what the condition tests) and whether
`accept-ranges === "bytes"`. -/
structure ProbeHeaders where
  contentLength : Option ℕ
  acceptRangesBytes : Bool
  deriving Repr, DecidableEq

/-- How the synchronous part of `_start` left the session. -/
inductive StartOutcome where
  | ignored
  | failed
  | assembling
  | downloading (jobs : List ℕ)
  | single
  deriving Repr, DecidableEq

/-- Events `_start` itself can emit before returning. -/
inductive StartEv where
  | errorEv
  | closeEv
  | metadataEv
  deriving Repr, DecidableEq

/-- The synchronous behaviour of `_start` (lines 379-438) on a fresh
session, up to dispatching asynchronous work.  Oracles: `stat`, `joinBase`,
`copyName`, `fuel` feed `_ensureDest` (386); `validateOk` is the `validate`
result (389-390); `probe` the `_getHeaders` result (391), `.error` meaning
the probe threw; `disk` feeds the resume scanner; `hasMetadataListener`
gates line 420.  When `_ensureDest` nulls the destination, `_start` just
returns (387-388) — nothing is emitted.  Any exception is caught at
434-437: `emit("error")`, then `destroy()` emits `close`. -/
def _start (connections cs0 : ℕ) (behavior : ExistBehavior)
    (stat : String → Option FsStat) (joinBase copyName : String → String) (fuel : ℕ)
    (dest : String) (validateOk : Bool) (probe : Except String ProbeHeaders)
    (disk : ℕ → Option ℕ) (hasMetadataListener : Bool) :
    List StartEv × StartOutcome :=
  match _ensureDest stat joinBase copyName behavior fuel (some dest) with
  | none => ([], .ignored)
  | some _ =>
      if validateOk = false then ([.errorEv, .closeEv], .failed)
      else
        match probe with
        | .error _ => ([.errorEv, .closeEv], .failed)
        | .ok headers =>
            match headers.contentLength with
            | some size =>
                if connections ≠ 1 ∧ headers.acceptRangesBytes then
                  match _calcRanges size connections cs0 with
                  | none => ([.errorEv, .closeEv], .failed)
                  | some ranges =>
                      match _syncJobs (size : ℤ) ranges disk with
                      | .error _ => ([.errorEv, .closeEv], .failed)
                      | .ok st =>
                          ((if hasMetadataListener then [StartEv.metadataEv] else []),
                            if st.jobs.isEmpty then .assembling else .downloading st.jobs)
                else ((if hasMetadataListener then [StartEv.metadataEv] else []), .single)
            | none => ((if hasMetadataListener then [StartEv.metadataEv] else []), .single)

lemma partStart_zero (L : ℕ → ℤ) : partStart L 0 = 0 := by simp [partStart]

lemma partStart_succ (L : ℕ → ℤ) (i : ℕ) :
    partStart L (i + 1) = partStart L i + L i :=
  Finset.sum_range_succ L i

lemma chunkStart_eq_partStart (size connections cs0 i : ℕ) :
    chunkStart size connections cs0 i = partStart (chunkLen size connections cs0) i := rfl

lemma partStart_mono (L : ℕ → ℤ) (n : ℕ) (hL : ∀ i, i < n → 1 ≤ L i)
    {i j : ℕ} (hij : i ≤ j) (hj : j ≤ n) : partStart L i ≤ partStart L j := by
  apply Finset.sum_le_sum_of_subset_of_nonneg (Finset.range_subset.mpr hij)
  intro k hk _
  have : k < n := lt_of_lt_of_le (Finset.mem_range.mp hk) hj
  linarith [hL k this]

lemma partStart_locate (L : ℕ → ℤ) :
    ∀ n : ℕ, (∀ i, i < n → 1 ≤ L i) → ∀ x : ℤ, 0 ≤ x → x < partStart L n →
      ∃ i, i < n ∧ partStart L i ≤ x ∧ x < partStart L (i + 1) := by
  intro n
  induction n with
  | zero =>
    intro _ x hx hlt
    rw [partStart_zero] at hlt
    omega
  | succ m ih =>
    intro hL x hx hlt
    by_cases h : partStart L m ≤ x
    · exact ⟨m, Nat.lt_succ_self m, h, hlt⟩
    · obtain ⟨i, hi, h1, h2⟩ :=
        ih (fun i hi => hL i (Nat.lt_succ_of_lt hi)) x hx (lt_of_not_le h)
      exact ⟨i, Nat.lt_succ_of_lt hi, h1, h2⟩

/-! ### Closed forms for the planner, shrink branch (line 351 condition true) -/

lemma connections_pos_of_shrink (size connections cs0 : ℕ)
    (h : size < connections * cs0) : 1 ≤ connections := by
  rcases Nat.eq_zero_or_pos connections with hc | hc
  · subst hc; simp at h
  · exact hc

lemma effChunkSize_shrink (size connections cs0 : ℕ) (h : size < connections * cs0) :
    effChunkSize size connections cs0 = size / connections := by
  simp [effChunkSize, h]

lemma extraSize_shrink (size connections cs0 : ℕ) (h : size < connections * cs0) :
    extraSize size connections cs0 = size % connections := by
  simp [extraSize, h]

/-- When the shrink branch fires and the quotient dominates the remainder,
the planner makes exactly `connections` chunks. -/
lemma numChunks_shrink (size connections cs0 : ℕ) (h : size < connections * cs0)
    (hq : size % connections < size / connections) :
    numChunks size connections cs0 = connections := by
  have hmod : connections * (size / connections) + size % connections = size :=
    Nat.div_add_mod size connections
  rw [numChunks, effChunkSize_shrink size connections cs0 h,
      extraSize_shrink size connections cs0 h]
  obtain ⟨q, hqd⟩ : ∃ q, size / connections = q := ⟨_, rfl⟩
  obtain ⟨r, hrd⟩ : ∃ r, size % connections = r := ⟨_, rfl⟩
  rw [hqd, hrd] at hmod hq ⊢
  have hq1 : 0 < q := by omega
  have hcomm : connections * q = q * connections := Nat.mul_comm _ _
  by_cases hr : r = 0
  · rw [if_neg (by simpa using hr)]
    have e : size + q - 1 = (q - 1) + q * connections := by omega
    rw [e, Nat.add_mul_div_left _ _ hq1, Nat.div_eq_of_lt (by omega)]
    omega
  · rw [if_pos hr]
    have e : size = r + q * connections := by omega
    rw [e, Nat.add_mul_div_left _ _ hq1, Nat.div_eq_of_lt (by omega)]
    omega

lemma rawLen_shrink (size connections cs0 : ℕ) (h : size < connections * cs0)
    (hq : size % connections < size / connections) (i : ℕ) :
    rawLen size connections cs0 i =
      ((size / connections : ℕ) : ℤ) + (if i < size % connections then 1 else 0) := by
  have hmod : connections * (size / connections) + size % connections = size :=
    Nat.div_add_mod size connections
  have hn := numChunks_shrink size connections cs0 h hq
  rw [rawLen, effChunkSize_shrink size connections cs0 h,
      extraSize_shrink size connections cs0 h, hn]
  congr 1
  by_cases hi : i < connections - 1
  · rw [if_pos hi]
  · rw [if_neg hi]
    have hcast : ((connections : ℤ)) * ((size / connections : ℕ) : ℤ) +
        ((size % connections : ℕ) : ℤ) = (size : ℤ) := by exact_mod_cast hmod
    linear_combination -hcast

lemma chunkLen_shrink (size connections cs0 : ℕ) (h : size < connections * cs0)
    (hq : size % connections < size / connections) (i : ℕ) :
    chunkLen size connections cs0 i =
      ((size / connections : ℕ) : ℤ) + (if i < size % connections then 1 else 0) := by
  have hc := connections_pos_of_shrink size connections cs0 h
  have hrlt : size % connections < connections := Nat.mod_lt _ hc
  have hn := numChunks_shrink size connections cs0 h hq
  have hcond : ¬(1 < numChunks size connections cs0 ∧
      2 * rawLen size connections cs0 (numChunks size connections cs0 - 1) <
        (effChunkSize size connections cs0 : ℤ)) := by
    rw [hn, effChunkSize_shrink size connections cs0 h,
        rawLen_shrink size connections cs0 h hq]
    rintro ⟨h1, h2⟩
    rw [if_neg (by omega : ¬(connections - 1 < size % connections))] at h2
    omega
  rw [chunkLen, if_neg hcond]
  exact rawLen_shrink size connections cs0 h hq i

lemma sum_chunkLen_shrink (size connections cs0 : ℕ) (h : size < connections * cs0)
    (hq : size % connections < size / connections) :
    partStart (chunkLen size connections cs0) (numChunks size connections cs0) =
      (size : ℤ) := by
  have hc := connections_pos_of_shrink size connections cs0 h
  have hrlt : size % connections < connections := Nat.mod_lt _ hc
  have hmod : connections * (size / connections) + size % connections = size :=
    Nat.div_add_mod size connections
  rw [partStart, numChunks_shrink size connections cs0 h hq]
  rw [Finset.sum_congr rfl (fun i _ => chunkLen_shrink size connections cs0 h hq i)]
  rw [Finset.sum_add_distrib, Finset.sum_const, Finset.card_range]
  have hfilter : (∑ i ∈ Finset.range connections,
      if i < size % connections then (1 : ℤ) else 0) = ((size % connections : ℕ) : ℤ) := by
    rw [← Finset.sum_filter]
    have : Finset.filter (fun i => i < size % connections) (Finset.range connections) =
        Finset.range (size % connections) := by
      ext x
      simp only [Finset.mem_filter, Finset.mem_range]
      omega
    rw [this, Finset.sum_const, Finset.card_range]
    simp
  rw [hfilter]
  have hcast : ((connections : ℤ)) * ((size / connections : ℕ) : ℤ) +
      ((size % connections : ℕ) : ℤ) = (size : ℤ) := by exact_mod_cast hmod
  rw [nsmul_eq_mul]
  linear_combination hcast

lemma chunkLen_shrink_pos (size connections cs0 : ℕ) (h : size < connections * cs0)
    (hq : size % connections < size / connections) (i : ℕ) :
    1 ≤ chunkLen size connections cs0 i := by
  rw [chunkLen_shrink size connections cs0 h hq i]
  split <;> omega

lemma sum_chunkLen_eq_sum_rawLen (size connections cs0 : ℕ)
    (hn2 : 2 ≤ numChunks size connections cs0) :
    partStart (chunkLen size connections cs0) (numChunks size connections cs0) =
      partStart (rawLen size connections cs0) (numChunks size connections cs0) := by
  rw [partStart, partStart]
  by_cases hcond : 1 < numChunks size connections cs0 ∧
      2 * rawLen size connections cs0 (numChunks size connections cs0 - 1) <
        (effChunkSize size connections cs0 : ℤ)
  · obtain ⟨n1, hn1⟩ : ∃ m, numChunks size connections cs0 = m := ⟨_, rfl⟩
    rw [hn1] at hcond hn2 ⊢
    have hsplit : ∀ i ∈ Finset.range n1, chunkLen size connections cs0 i =
        rawLen size connections cs0 i +
        ((if i = n1 - 1 then tailDiff size connections cs0 else 0) +
         (if i = n1 - 2 then -tailDiff size connections cs0 else 0)) := by
      intro i _
      rw [chunkLen, hn1, if_pos hcond]
      by_cases h1 : i = n1 - 1
      · rw [if_pos h1, if_pos h1, if_neg (by omega)]
        ring
      · rw [if_neg h1, if_neg h1]
        by_cases h2 : i = n1 - 2
        · rw [if_pos h2, if_pos h2]
          ring
        · rw [if_neg h2, if_neg h2]
          ring
    rw [Finset.sum_congr rfl hsplit, Finset.sum_add_distrib, Finset.sum_add_distrib]
    rw [Finset.sum_ite_eq' (Finset.range n1) (n1 - 1) (fun _ => tailDiff size connections cs0)]
    rw [Finset.sum_ite_eq' (Finset.range n1) (n1 - 2) (fun _ => -tailDiff size connections cs0)]
    rw [if_pos (Finset.mem_range.mpr (by omega)), if_pos (Finset.mem_range.mpr (by omega))]
    ring
  · exact Finset.sum_congr rfl fun i _ => by rw [chunkLen, if_neg hcond]

/-! ### Closed forms for the planner, shrink branch with `q ≤ r < 2q` -/

/-- When the shrink branch fires with `q ≤ r < 2q` (and `q ≥ 2`), the
planner makes `connections + 1` chunks. -/
lemma numChunks_shrink2 (size connections cs0 : ℕ) (h : size < connections * cs0)
    (hq2 : 2 ≤ size / connections) (hqr : size / connections ≤ size % connections)
    (hr2q : size % connections < 2 * (size / connections)) :
    numChunks size connections cs0 = connections + 1 := by
  have hmod : connections * (size / connections) + size % connections = size :=
    Nat.div_add_mod size connections
  rw [numChunks, effChunkSize_shrink size connections cs0 h,
      extraSize_shrink size connections cs0 h]
  obtain ⟨q, hqd⟩ : ∃ q, size / connections = q := ⟨_, rfl⟩
  obtain ⟨r, hrd⟩ : ∃ r, size % connections = r := ⟨_, rfl⟩
  rw [hqd] at hmod hq2 hqr hr2q ⊢
  rw [hrd] at hmod hqr hr2q ⊢
  have hq1 : 0 < q := by omega
  rw [if_pos (by omega : r ≠ 0)]
  have hcomm : connections * q = q * connections := Nat.mul_comm _ _
  have hdist : q * (connections + 1) = q * connections + q := by ring
  have e : size = (r - q) + q * (connections + 1) := by omega
  rw [e, Nat.add_mul_div_left _ _ hq1, Nat.div_eq_of_lt (by omega)]
  omega

lemma rawLen_shrink2 (size connections cs0 : ℕ) (h : size < connections * cs0)
    (hq2 : 2 ≤ size / connections) (hqr : size / connections ≤ size % connections)
    (hr2q : size % connections < 2 * (size / connections)) (i : ℕ) :
    rawLen size connections cs0 i =
      if i < connections then
        ((size / connections : ℕ) : ℤ) + (if i < size % connections then 1 else 0)
      else 0 := by
  have hn := numChunks_shrink2 size connections cs0 h hq2 hqr hr2q
  have hmod : connections * (size / connections) + size % connections = size :=
    Nat.div_add_mod size connections
  have hc : 1 ≤ connections := connections_pos_of_shrink size connections cs0 h
  have hrc : size % connections < connections := Nat.mod_lt _ hc
  rw [rawLen, effChunkSize_shrink size connections cs0 h,
      extraSize_shrink size connections cs0 h, hn, Nat.add_sub_cancel]
  by_cases hi : i < connections
  · rw [if_pos hi, if_pos hi]
  · rw [if_neg hi, if_neg hi, if_neg (by omega : ¬ i < size % connections)]
    have hcast : ((connections : ℤ)) * ((size / connections : ℕ) : ℤ) +
        ((size % connections : ℕ) : ℤ) = (size : ℤ) := by exact_mod_cast hmod
    have hc1 : ((connections + 1 : ℕ) : ℤ) = (connections : ℤ) + 1 := by push_cast; ring
    rw [hc1]
    linear_combination -hcast

lemma tailDiff_shrink2 (size connections cs0 : ℕ) (h : size < connections * cs0)
    (hq2 : 2 ≤ size / connections) (hqr : size / connections ≤ size % connections)
    (hr2q : size % connections < 2 * (size / connections)) :
    tailDiff size connections cs0 = ((size / connections / 2 : ℕ) : ℤ) := by
  rw [tailDiff, effChunkSize_shrink size connections cs0 h,
      numChunks_shrink2 size connections cs0 h hq2 hqr hr2q, Nat.add_sub_cancel,
      rawLen_shrink2 size connections cs0 h hq2 hqr hr2q connections,
      if_neg (lt_irrefl connections)]
  ring

lemma rebalance_fires_shrink2 (size connections cs0 : ℕ) (h : size < connections * cs0)
    (hq2 : 2 ≤ size / connections) (hqr : size / connections ≤ size % connections)
    (hr2q : size % connections < 2 * (size / connections)) :
    1 < numChunks size connections cs0 ∧
    2 * rawLen size connections cs0 (numChunks size connections cs0 - 1) <
      (effChunkSize size connections cs0 : ℤ) := by
  have hc : 1 ≤ connections := connections_pos_of_shrink size connections cs0 h
  rw [numChunks_shrink2 size connections cs0 h hq2 hqr hr2q,
      effChunkSize_shrink size connections cs0 h, Nat.add_sub_cancel,
      rawLen_shrink2 size connections cs0 h hq2 hqr hr2q connections,
      if_neg (lt_irrefl connections)]
  constructor
  · omega
  · omega

lemma chunkLen_shrink2_pos (size connections cs0 : ℕ) (h : size < connections * cs0)
    (hq2 : 2 ≤ size / connections) (hqr : size / connections ≤ size % connections)
    (hr2q : size % connections < 2 * (size / connections))
    (i : ℕ) (hi : i < connections + 1) :
    1 ≤ chunkLen size connections cs0 i := by
  have hn := numChunks_shrink2 size connections cs0 h hq2 hqr hr2q
  have hc : 1 ≤ connections := connections_pos_of_shrink size connections cs0 h
  have hrc : size % connections < connections := Nat.mod_lt _ hc
  have htd := tailDiff_shrink2 size connections cs0 h hq2 hqr hr2q
  rw [chunkLen, if_pos (rebalance_fires_shrink2 size connections cs0 h hq2 hqr hr2q),
      hn, Nat.add_sub_cancel, htd]
  by_cases h1 : i = connections
  · rw [if_pos h1, h1, rawLen_shrink2 size connections cs0 h hq2 hqr hr2q connections,
        if_neg (lt_irrefl connections)]
    omega
  · rw [if_neg h1]
    have h2 : connections + 1 - 2 = connections - 1 := by omega
    rw [h2, rawLen_shrink2 size connections cs0 h hq2 hqr hr2q i,
        if_pos (show i < connections by omega)]
    by_cases h3 : i = connections - 1
    · rw [if_pos h3, if_neg (show ¬ i < size % connections by omega)]
      omega
    · rw [if_neg h3]
      split <;> omega

lemma sum_chunkLen_shrink2 (size connections cs0 : ℕ) (h : size < connections * cs0)
    (hq2 : 2 ≤ size / connections) (hqr : size / connections ≤ size % connections)
    (hr2q : size % connections < 2 * (size / connections)) :
    partStart (chunkLen size connections cs0) (numChunks size connections cs0) =
      (size : ℤ) := by
  have hn := numChunks_shrink2 size connections cs0 h hq2 hqr hr2q
  have hc : 1 ≤ connections := connections_pos_of_shrink size connections cs0 h
  have hrc : size % connections < connections := Nat.mod_lt _ hc
  have hmod : connections * (size / connections) + size % connections = size :=
    Nat.div_add_mod size connections
  rw [sum_chunkLen_eq_sum_rawLen size connections cs0 (by omega)]
  rw [partStart, hn, Finset.sum_range_succ,
      rawLen_shrink2 size connections cs0 h hq2 hqr hr2q connections,
      if_neg (lt_irrefl connections), add_zero]
  have hbody : ∀ i ∈ Finset.range connections, rawLen size connections cs0 i =
      ((size / connections : ℕ) : ℤ) + (if i < size % connections then 1 else 0) := by
    intro i hi
    rw [rawLen_shrink2 size connections cs0 h hq2 hqr hr2q i,
        if_pos (Finset.mem_range.mp hi)]
  rw [Finset.sum_congr rfl hbody, Finset.sum_add_distrib, Finset.sum_const,
      Finset.card_range]
  have hfilter : (∑ i ∈ Finset.range connections,
      if i < size % connections then (1 : ℤ) else 0) = ((size % connections : ℕ) : ℤ) := by
    rw [← Finset.sum_filter]
    have he : Finset.filter (fun i => i < size % connections) (Finset.range connections) =
        Finset.range (size % connections) := by
      ext x
      simp only [Finset.mem_filter, Finset.mem_range]
      omega
    rw [he, Finset.sum_const, Finset.card_range]
    simp
  rw [hfilter]
  have hcast : ((connections : ℤ)) * ((size / connections : ℕ) : ℤ) +
      ((size % connections : ℕ) : ℤ) = (size : ℤ) := by exact_mod_cast hmod
  rw [nsmul_eq_mul]
  linear_combination hcast

/-! ### Closed forms for the planner, no-shrink branch (line 351 condition false) -/

lemma effChunkSize_noshrink (size connections cs0 : ℕ) (h : ¬ size < connections * cs0) :
    effChunkSize size connections cs0 = cs0 := by
  simp [effChunkSize, h]

lemma extraSize_noshrink (size connections cs0 : ℕ) (h : ¬ size < connections * cs0) :
    extraSize size connections cs0 = 0 := by
  simp [extraSize, h]

lemma numChunks_noshrink (size connections cs0 : ℕ) (h : ¬ size < connections * cs0) :
    numChunks size connections cs0 = (size + cs0 - 1) / cs0 := by
  rw [numChunks, extraSize_noshrink size connections cs0 h,
      effChunkSize_noshrink size connections cs0 h]
  simp

lemma ceil_le (size cs0 : ℕ) (hs : 1 ≤ size) (hcs : 1 ≤ cs0) :
    size ≤ cs0 * ((size + cs0 - 1) / cs0) := by
  have h1 : cs0 * ((size + cs0 - 1) / cs0) + (size + cs0 - 1) % cs0 = size + cs0 - 1 :=
    Nat.div_add_mod _ _
  have h2 : (size + cs0 - 1) % cs0 < cs0 := Nat.mod_lt _ (by omega)
  omega

lemma ceil_pos (size cs0 : ℕ) (hs : 1 ≤ size) (hcs : 1 ≤ cs0) :
    1 ≤ (size + cs0 - 1) / cs0 := by
  have hle := ceil_le size cs0 hs hcs
  rcases Nat.eq_zero_or_pos ((size + cs0 - 1) / cs0) with h0 | h0
  · rw [h0, Nat.mul_zero] at hle; omega
  · exact h0

lemma ceil_lt (size cs0 : ℕ) (hs : 1 ≤ size) (hcs : 1 ≤ cs0) :
    cs0 * ((size + cs0 - 1) / cs0 - 1) < size := by
  have hn := ceil_pos size cs0 hs hcs
  have h1 : cs0 * ((size + cs0 - 1) / cs0) + (size + cs0 - 1) % cs0 = size + cs0 - 1 :=
    Nat.div_add_mod _ _
  have h2 : (size + cs0 - 1) % cs0 < cs0 := Nat.mod_lt _ (by omega)
  have hsub : cs0 * ((size + cs0 - 1) / cs0 - 1) + cs0 = cs0 * ((size + cs0 - 1) / cs0) := by
    have e : (size + cs0 - 1) / cs0 - 1 + 1 = (size + cs0 - 1) / cs0 := by omega
    calc cs0 * ((size + cs0 - 1) / cs0 - 1) + cs0
        = cs0 * ((size + cs0 - 1) / cs0 - 1 + 1) := by ring
    _ = cs0 * ((size + cs0 - 1) / cs0) := by rw [e]
  omega

/-- In the no-shrink branch, the tail chunk length before rebalance,
`size - (n-1)*cs0`, lies in `[1, cs0]`. -/
lemma tail_bounds (size connections cs0 : ℕ) (h : ¬ size < connections * cs0)
    (hs : 1 ≤ size) (hcs : 1 ≤ cs0) :
    1 ≤ (size : ℤ) - ((numChunks size connections cs0 : ℤ) - 1) * (cs0 : ℤ) ∧
    (size : ℤ) - ((numChunks size connections cs0 : ℤ) - 1) * (cs0 : ℤ) ≤ (cs0 : ℤ) := by
  rw [numChunks_noshrink size connections cs0 h]
  have h1 := ceil_le size cs0 hs hcs
  have h2 := ceil_lt size cs0 hs hcs
  have h3 := ceil_pos size cs0 hs hcs
  obtain ⟨d, hd⟩ : ∃ d, (size + cs0 - 1) / cs0 = d := ⟨_, rfl⟩
  rw [hd] at h1 h2 h3 ⊢
  have c1 : (size : ℤ) ≤ (cs0 : ℤ) * (d : ℤ) := by exact_mod_cast h1
  have c2 : (cs0 : ℤ) * ((d : ℤ) - 1) < (size : ℤ) := by
    have : ((d - 1 : ℕ) : ℤ) = (d : ℤ) - 1 := by omega
    rw [← this]
    exact_mod_cast h2
  constructor <;> nlinarith [c1, c2]

lemma rawLen_noshrink (size connections cs0 : ℕ) (h : ¬ size < connections * cs0) (i : ℕ) :
    rawLen size connections cs0 i =
      if i < numChunks size connections cs0 - 1 then (cs0 : ℤ)
      else (size : ℤ) - ((numChunks size connections cs0 : ℤ) - 1) * (cs0 : ℤ) := by
  rw [rawLen, effChunkSize_noshrink size connections cs0 h,
      extraSize_noshrink size connections cs0 h]
  simp

lemma chunkLen_noshrink_pos (size connections cs0 : ℕ) (h : ¬ size < connections * cs0)
    (hs : 1 ≤ size) (hcs : 1 ≤ cs0) (i : ℕ) :
    1 ≤ chunkLen size connections cs0 i := by
  obtain ⟨ht1, ht2⟩ := tail_bounds size connections cs0 h hs hcs
  have hraw : ∀ j, 1 ≤ rawLen size connections cs0 j := by
    intro j
    rw [rawLen_noshrink size connections cs0 h j]
    split
    · omega
    · omega
  have hlast : rawLen size connections cs0 (numChunks size connections cs0 - 1) =
      (size : ℤ) - ((numChunks size connections cs0 : ℤ) - 1) * (cs0 : ℤ) := by
    rw [rawLen_noshrink size connections cs0 h, if_neg (by omega)]
  rw [chunkLen]
  split
  · rename_i hcond
    obtain ⟨hn2, hlt⟩ := hcond
    rw [effChunkSize_noshrink size connections cs0 h] at hlt
    rw [hlast] at hlt
    have htd : tailDiff size connections cs0 =
        ((cs0 / 2 : ℕ) : ℤ) - ((size : ℤ) - ((numChunks size connections cs0 : ℤ) - 1) * (cs0 : ℤ)) := by
      rw [tailDiff, effChunkSize_noshrink size connections cs0 h, hlast]
    obtain ⟨T, hT⟩ : ∃ t, (size : ℤ) - ((numChunks size connections cs0 : ℤ) - 1) * (cs0 : ℤ) = t :=
      ⟨_, rfl⟩
    rw [hT] at ht1 ht2 hlt htd hlast
    split
    · rename_i hi
      rw [hi, hlast, htd]
      omega
    · split
      · rename_i hi1 hi2
        have hraw2 : rawLen size connections cs0 (numChunks size connections cs0 - 2) = (cs0 : ℤ) := by
          rw [rawLen_noshrink size connections cs0 h, if_pos (by omega)]
        rw [hi2, hraw2, htd]
        omega
      · exact hraw i
  · exact hraw i

lemma sum_rawLen_noshrink (size connections cs0 : ℕ) (h : ¬ size < connections * cs0)
    (hs : 1 ≤ size) (hcs : 1 ≤ cs0) :
    partStart (rawLen size connections cs0) (numChunks size connections cs0) = (size : ℤ) := by
  obtain ⟨k, hk⟩ : ∃ k, numChunks size connections cs0 = k + 1 := by
    have := ceil_pos size cs0 hs hcs
    rw [numChunks_noshrink size connections cs0 h]
    exact ⟨(size + cs0 - 1) / cs0 - 1, by omega⟩
  rw [partStart, hk, Finset.sum_range_succ]
  have hbody : ∀ i ∈ Finset.range k, rawLen size connections cs0 i = (cs0 : ℤ) := by
    intro i hi
    rw [rawLen_noshrink size connections cs0 h, if_pos (by rw [hk]; exact
      (by simpa using Finset.mem_range.mp hi))]
  rw [Finset.sum_congr rfl hbody, Finset.sum_const, Finset.card_range]
  rw [rawLen_noshrink size connections cs0 h, if_neg (by omega), hk]
  push_cast
  ring

lemma sum_chunkLen_noshrink (size connections cs0 : ℕ) (h : ¬ size < connections * cs0)
    (hs : 1 ≤ size) (hcs : 1 ≤ cs0) :
    partStart (chunkLen size connections cs0) (numChunks size connections cs0) = (size : ℤ) := by
  rcases Nat.lt_or_ge (numChunks size connections cs0) 2 with hn | hn
  · have hn1 : numChunks size connections cs0 = 1 := by
      have := ceil_pos size cs0 hs hcs
      rw [numChunks_noshrink size connections cs0 h] at hn ⊢
      omega
    rw [partStart, hn1]
    rw [Finset.sum_range_one]
    have : ¬(1 < numChunks size connections cs0 ∧
        2 * rawLen size connections cs0 (numChunks size connections cs0 - 1) <
          (effChunkSize size connections cs0 : ℤ)) := by
      rw [hn1]; omega
    rw [chunkLen, if_neg this, rawLen_noshrink size connections cs0 h, hn1]
    simp
  · rw [sum_chunkLen_eq_sum_rawLen size connections cs0 hn]
    exact sum_rawLen_noshrink size connections cs0 h hs hcs

/-! ### Tiling properties of ranges built from positive lengths by prefix sums -/

lemma tiling_chain (L : ℕ → ℤ) (n : ℕ) (hL : ∀ i, i < n → 1 ≤ L i) :
    ((List.range n).map fun i => (partStart L i, partStart L i + L i - 1)).Chain'
      (fun p q => p.1 < q.1 ∧ p.2 + 1 = q.1) := by
  rw [List.chain'_iff_get]
  intro i hi
  simp only [List.length_map, List.length_range] at hi
  simp only [List.get_eq_getElem, List.getElem_map, List.getElem_range]
  have h1 : i < n := by omega
  have h2 := partStart_succ L i
  have h3 := hL i h1
  exact ⟨by omega, by omega⟩

lemma tiling_pairwise (L : ℕ → ℤ) (n : ℕ) (hL : ∀ i, i < n → 1 ≤ L i) :
    ((List.range n).map fun i => (partStart L i, partStart L i + L i - 1)).Pairwise
      (fun p q => ∀ x : ℤ, ¬(p.1 ≤ x ∧ x ≤ p.2 ∧ q.1 ≤ x ∧ x ≤ q.2)) := by
  rw [List.pairwise_iff_get]
  intro i j hij
  simp only [List.get_eq_getElem, List.getElem_map, List.getElem_range]
  intro x hx
  obtain ⟨h1, h2, h3, h4⟩ := hx
  have hi : (i : ℕ) < n := by
    have := i.isLt
    simpa using this
  have hj : (j : ℕ) < n := by
    have := j.isLt
    simpa using this
  have hstep : partStart L ((i : ℕ) + 1) = partStart L (i : ℕ) + L (i : ℕ) :=
    partStart_succ L (i : ℕ)
  have hmono : partStart L ((i : ℕ) + 1) ≤ partStart L (j : ℕ) :=
    partStart_mono L n hL (by exact_mod_cast hij) (le_of_lt hj)
  omega

lemma tiling_union (L : ℕ → ℤ) (n : ℕ) (total : ℤ) (hL : ∀ i, i < n → 1 ≤ L i)
    (hsum : partStart L n = total) (x : ℤ) :
    (0 ≤ x ∧ x < total) ↔
      ∃ p ∈ (List.range n).map fun i => (partStart L i, partStart L i + L i - 1),
        p.1 ≤ x ∧ x ≤ p.2 := by
  constructor
  · rintro ⟨hx0, hxt⟩
    obtain ⟨i, hi, h1, h2⟩ := partStart_locate L n hL x hx0 (by rw [hsum]; exact hxt)
    refine ⟨(partStart L i, partStart L i + L i - 1), ?_, h1, ?_⟩
    · exact List.mem_map.mpr ⟨i, List.mem_range.mpr hi, rfl⟩
    · have := partStart_succ L i
      omega
  · rintro ⟨p, hp, h1, h2⟩
    obtain ⟨i, hi, rfl⟩ := List.mem_map.mp hp
    have hi' : i < n := List.mem_range.mp hi
    have a1 : (0 : ℤ) ≤ partStart L i := by
      have := partStart_mono L n hL (Nat.zero_le i) (le_of_lt hi')
      rw [partStart_zero] at this
      exact this
    have a2 : partStart L (i + 1) ≤ partStart L n :=
      partStart_mono L n hL (by omega) (le_refl n)
    have a3 := partStart_succ L i
    rw [hsum] at a2
    constructor <;> [skip; skip] <;> simp only at h1 h2 <;> omega

/-! ### Claims C1 and C3 -/

/-- C1 (amended): for every total size ≥ 1 and positive chunk size, provided
that when the shrink branch fires (`size < connections * chunkSize`) the
shrunk quotient `q = ⌊size / connections⌋` and remainder
`r = size mod connections` satisfy `r < q`, or `2 ≤ q` with `r < 2q`, the
plan produced by `_calcRanges` tiles `[0, size)` exactly: the inclusive
ranges cover `[0, size)`, are pairwise disjoint, and every consecutive pair
satisfies `lo i < lo (i+1)` and `hi i + 1 = lo (i+1)`.  (The unamended
claim fails, e.g. at `size = 7, connections = 5, chunkSize = 2`, where
`q = 1 ≤ r = 2` produces two empty trailing ranges.) -/
theorem calcRanges_tiles (size connections cs0 : ℕ) (hs : 1 ≤ size) (hcs : 1 ≤ cs0)
    (hcond : connections * cs0 ≤ size ∨ size % connections < size / connections ∨
      (2 ≤ size / connections ∧ size % connections < 2 * (size / connections))) :
    ∃ rs, _calcRanges size connections cs0 = some rs ∧
      (∀ x : ℤ, (0 ≤ x ∧ x < (size : ℤ)) ↔ ∃ p ∈ rs, p.1 ≤ x ∧ x ≤ p.2) ∧
      rs.Pairwise (fun p q => ∀ x : ℤ, ¬(p.1 ≤ x ∧ x ≤ p.2 ∧ q.1 ≤ x ∧ x ≤ q.2)) ∧
      rs.Chain' (fun p q => p.1 < q.1 ∧ p.2 + 1 = q.1) := by
  have key : (∀ i, i < numChunks size connections cs0 → 1 ≤ chunkLen size connections cs0 i) ∧
      partStart (chunkLen size connections cs0) (numChunks size connections cs0) = (size : ℤ) ∧
      effChunkSize size connections cs0 ≠ 0 := by
    by_cases h : size < connections * cs0
    · by_cases hq : size % connections < size / connections
      · refine ⟨fun i _ => chunkLen_shrink_pos size connections cs0 h hq i,
                sum_chunkLen_shrink size connections cs0 h hq, ?_⟩
        rw [effChunkSize_shrink size connections cs0 h]
        omega
      · have h2 : 2 ≤ size / connections ∧ size % connections < 2 * (size / connections) := by
          rcases hcond with h1 | h1 | h1
          · omega
          · omega
          · exact h1
        have hqr : size / connections ≤ size % connections := by omega
        refine ⟨fun i hi => chunkLen_shrink2_pos size connections cs0 h h2.1 hqr h2.2 i
                  (by rwa [numChunks_shrink2 size connections cs0 h h2.1 hqr h2.2] at hi),
                sum_chunkLen_shrink2 size connections cs0 h h2.1 hqr h2.2, ?_⟩
        rw [effChunkSize_shrink size connections cs0 h]
        omega
    · refine ⟨fun i _ => chunkLen_noshrink_pos size connections cs0 h hs hcs i,
              sum_chunkLen_noshrink size connections cs0 h hs hcs, ?_⟩
      rw [effChunkSize_noshrink size connections cs0 h]
      omega
  obtain ⟨hpos, hsum, hcs0⟩ := key
  refine ⟨(List.range (numChunks size connections cs0)).map fun i =>
      (partStart (chunkLen size connections cs0) i,
       partStart (chunkLen size connections cs0) i + chunkLen size connections cs0 i - 1),
    ?_, ?_, ?_, ?_⟩
  · rw [_calcRanges, if_neg hcs0]
    rfl
  · intro x
    exact tiling_union (chunkLen size connections cs0) (numChunks size connections cs0)
      (size : ℤ) hpos hsum x
  · exact tiling_pairwise (chunkLen size connections cs0) (numChunks size connections cs0) hpos
  · exact tiling_chain (chunkLen size connections cs0) (numChunks size connections cs0) hpos

/-- C1 witness: the amended tiling theorem applied at
`size = 10, connections = 2, chunkSize = 3`. -/
theorem calcRanges_tiles_witness :
    ∃ rs, _calcRanges 10 2 3 = some rs ∧
      (∀ x : ℤ, (0 ≤ x ∧ x < (10 : ℤ)) ↔ ∃ p ∈ rs, p.1 ≤ x ∧ x ≤ p.2) ∧
      rs.Pairwise (fun p q => ∀ x : ℤ, ¬(p.1 ≤ x ∧ x ≤ p.2 ∧ q.1 ≤ x ∧ x ≤ q.2)) ∧
      rs.Chain' (fun p q => p.1 < q.1 ∧ p.2 + 1 = q.1) :=
  calcRanges_tiles 10 2 3 (by decide) (by decide) (Or.inl (by decide))

/-- C1 counterexample: at `size = 7, connections = 5, chunkSize = 2` the
planner succeeds but produces `[(0,1),(2,3),(4,4),(5,5),(6,6),(7,6),(7,6)]`,
whose last two ranges share `lo = 7`, so the claimed strict ordering
`ranges[i].lo < ranges[i+1].lo` fails. -/
theorem calcRanges_claim_false_at_7_5_2 :
    ¬ ∃ rs, _calcRanges 7 5 2 = some rs ∧
        rs.Chain' (fun p q => p.1 < q.1 ∧ p.2 + 1 = q.1) := by
  rintro ⟨rs, hrs, hch⟩
  have heq : _calcRanges 7 5 2 =
      some [((0 : ℤ), (1 : ℤ)), (2, 3), (4, 4), (5, 5), (6, 6), (7, 6), (7, 6)] := by decide
  rw [heq] at hrs
  have hlist := Option.some.inj hrs
  subst hlist
  simp only [List.chain'_cons, List.chain'_singleton] at hch
  omega

/-- C3 counterexample: for `size = 100000, connections = 5, chunkSize = 30000`
the planner does not produce the four claimed ranges: the shrink branch fires
first (`100000 / 30000 < 5`), replacing the chunk size with
`⌊100000 / 5⌋ = 20000`, so the claimed rebalanced four-range plan is wrong. -/
theorem calcRanges_100000_not_four_ranges :
    _calcRanges 100000 5 30000 ≠
      some [(0, 29999), (30000, 59999), (60000, 84999), (85000, 99999)] := by decide

/-- C3 (amended): for `size = 100000, connections = 5, chunkSize = 30000`
the shrink branch (`size / chunkSize < connections`) resets the chunk size
to `⌊100000 / 5⌋ = 20000`, and the planner produces exactly the five
inclusive ranges `[0,19999] [20000,39999] [40000,59999] [60000,79999]
[80000,99999]`; the tail rebalance does not fire. -/
theorem calcRanges_100000_five_ranges :
    _calcRanges 100000 5 30000 =
      some [(0, 19999), (20000, 39999), (40000, 59999), (60000, 79999), (80000, 99999)] := by
  decide

/-! ### Claim C4: the resume scanner's classification -/

/-- C4 (amended): for every planned chunk, the scanner classifies the
on-disk `P.$$<i>`: absent → enqueue; size equal to the range length → mark
complete (bytes credited, 100%, `isResume`); greater → fatal error; less →
enqueue *without deleting the file* (the scanner issues no unlink — the
stale file stays until a successful attempt renames over it). -/
theorem syncChunk_classifies (size : ℤ) (i : ℕ) (range : ℤ × ℤ) (st : SyncState) :
    (st.disk i = none → ∃ st', syncChunk size i range st = .ok st' ∧
        st'.jobs = st.jobs ++ [i] ∧ st'.disk = st.disk ∧
        st'.isResume = st.isResume ∧ st'.totalBytes = st.totalBytes) ∧
    (∀ sz, st.disk i = some sz →
      ((range.2 - range.1 + 1 < (sz : ℤ) →
          syncChunk size i range st = .error (range.2 - range.1 + 1, sz)) ∧
       ((sz : ℤ) = range.2 - range.1 + 1 → ∃ st', syncChunk size i range st = .ok st' ∧
          st'.jobs = st.jobs ∧ st'.disk = st.disk ∧ st'.isResume = true ∧
          st'.totalBytes = st.totalBytes + (sz : ℤ) ∧
          st'.parts = st.parts ++
            [({ speed := some 0, bytes := (sz : ℤ), percentage := 100 } : PartProgress)]) ∧
       ((sz : ℤ) < range.2 - range.1 + 1 → ∃ st', syncChunk size i range st = .ok st' ∧
          st'.jobs = st.jobs ++ [i] ∧ st'.disk = st.disk))) := by
  constructor
  · intro h
    refine ⟨{ st with
        parts := st.parts ++ [({ speed := some 0, bytes := 0, percentage := 0 } : PartProgress)],
        jobs := st.jobs ++ [i] }, ?_, by simp, by simp, by simp, by simp⟩
    simp [syncChunk, h]
  · intro sz h
    refine ⟨?_, ?_, ?_⟩
    · intro hgt
      simp [syncChunk, h, hgt]
    · intro heq
      have hngt : ¬ (range.2 - range.1 + 1 < (sz : ℤ)) := by omega
      refine ⟨{ st with
          parts := st.parts ++
            [({ speed := some 0, bytes := (sz : ℤ), percentage := 100 } : PartProgress)],
          totalBytes := st.totalBytes + (sz : ℤ),
          totalPct := if size ≠ 0 then
              100 * (((st.totalBytes + (sz : ℤ) : ℤ)) : ℚ) / (size : ℚ) else 0,
          isResume := true }, ?_, by simp, by simp, by simp, by simp, by simp⟩
      simp [syncChunk, h, hngt, heq]
    · intro hlt
      have hngt : ¬ (range.2 - range.1 + 1 < (sz : ℤ)) := by omega
      have hne : ¬ ((sz : ℤ) = range.2 - range.1 + 1) := by omega
      refine ⟨{ st with
          parts := st.parts ++ [({ speed := some 0, bytes := 0, percentage := 0 } : PartProgress)],
          jobs := st.jobs ++ [i] }, ?_, by simp, by simp⟩
      simp [syncChunk, h, hngt, hne]

/-- C4 witness: the classification theorem at a concrete complete chunk
(range `[0,3]`, on-disk size 4): marked complete, bytes credited,
`isResume` set, file untouched. -/
theorem syncChunk_classifies_witness :
    ∃ st', syncChunk 4 0 (0, 3)
        { disk := fun _ => some 4, jobs := [], parts := [], totalBytes := 0,
          totalPct := 0, isResume := false } = .ok st' ∧
      st'.jobs = ([] : List ℕ) ∧
      st'.disk = (fun _ => some 4) ∧ st'.isResume = true ∧
      st'.totalBytes = 0 + ((4 : ℕ) : ℤ) ∧
      st'.parts = [] ++
        [({ speed := some 0, bytes := ((4 : ℕ) : ℤ), percentage := 100 } : PartProgress)] :=
  ((syncChunk_classifies 4 0 (0, 3) _).2 4 rfl).2.1 (by decide)

/-- C4 counterexample: scanning one 2-byte range with `P.$$0` present at
size 1 (undersized) enqueues chunk 0 but does *not* delete the file: after
the scan the filesystem still holds it, contradicting the claimed
"delete the file and enqueue i". -/
theorem syncJobs_undersized_not_deleted :
    ¬ (∀ st', _syncJobs 2 [(0, 1)] (fun j => if j = 0 then some 1 else none) = .ok st' →
          st'.disk 0 = none) := by
  intro hclaim
  have h := hclaim _ rfl
  simp at h

/-! ### Claim C2: what guards the rename to `P.$$<id>` -/

/-- Helper: the `ready`-handler error is absent exactly when the header
checks pass. -/
lemma attemptError_none_iff (range : Option (ℤ × ℤ)) (r : AttemptResponse) :
    attemptError range r = none ↔
      ((r.statusCode = 206 ∨ (r.statusCode = 200 ∧ range.isNone)) ∧
       (expectedSize range = 0 ∨ r.contentLength.getD 0 = 0 ∨
         expectedSize range = (r.contentLength.getD 0 : ℤ))) := by
  rcases range with _ | p
  · simp only [attemptError, expectedSize, Option.isNone_none, Option.isSome_none]
    split_ifs with h1 h2 h3 <;> simp_all <;> omega
  · simp only [attemptError, expectedSize, Option.isNone_some, Option.isSome_some]
    split_ifs with h1 h2 h3 <;> simp_all <;> omega

/-- C2 (amended): the worker renames `$PART` onto `P.$$<id>` exactly when
the response headers passed the `ready` checks — status 206 (or 200 for an
unranged request) and `content-length`, when present and a range length is
expected, equal to that range length.  The bytes actually written are not
verified: the completed file's size is whatever the stream delivered, so
it equals the range length only when the body arrived in full. -/
theorem attempt_renames_iff_header_ok (range : Option (ℤ × ℤ)) (r : AttemptResponse) :
    ((runAttempt range r).completed.isSome ↔
      ((r.statusCode = 206 ∨ (r.statusCode = 200 ∧ range.isNone)) ∧
       (expectedSize range = 0 ∨ r.contentLength.getD 0 = 0 ∨
         expectedSize range = (r.contentLength.getD 0 : ℤ)))) ∧
    ((runAttempt range r).completed.isSome →
      (runAttempt range r).completed = some r.bytesDelivered) := by
  constructor
  · rw [← attemptError_none_iff range r, runAttempt]
    by_cases hn : (attemptError range r).isNone
    · rw [if_pos hn]
      simpa using Option.isNone_iff_eq_none.mp hn
    · rw [if_neg hn]
      simpa using fun h => hn (by simp [h])
  · intro h
    rw [runAttempt] at h ⊢
    by_cases hn : (attemptError range r).isNone
    · rw [if_pos hn]
    · rw [if_neg hn] at h
      simp at h

/-- C2 witness: a clean ranged attempt (status 206, content-length 100,
100 bytes delivered) renames and the completed file holds the delivered
bytes. -/
theorem attempt_renames_iff_header_ok_witness :
    (runAttempt (some (0, 99))
        { statusCode := 206, contentLength := some 100, bytesDelivered := 100 }).completed =
      some 100 :=
  (attempt_renames_iff_header_ok (some (0, 99))
      { statusCode := 206, contentLength := some 100, bytesDelivered := 100 }).2 (by decide)

/-- C2 counterexample: an attempt for range `[0,99]` with status 206 and
`content-length: 100` whose stream delivered only 50 bytes still renames:
`P.$$<id>` ends up with size 50 ≠ 100, so the worker does not rename "only
for an attempt that wrote exactly range-length bytes". -/
theorem attempt_truncated_still_renames :
    ¬ (∀ sz, (runAttempt (some (0, 99))
          { statusCode := 206, contentLength := some 100, bytesDelivered := 50 }).completed =
            some sz → (sz : ℤ) = 99 - 0 + 1) := by
  intro h
  have h50 := h 50 (by decide)
  omega

/-! ### Claim C7: the retry schedule -/

/-- C7 (amended): when every attempt fails and the session is never
destroyed, the worker's trace is, for each attempt `k` in order: start
attempt `k`, emit `retry` with attempt `k`, sleep
`retryDelay + retryBackoff * (k - 1)` ms — followed by the fatal error and
the `close` from `destroy()`.  With `maxRetry = 3, retryDelay = 2000,
retryBackoff = 3000` the sleeps are 2000, 5000, 8000 ms after attempts 1,
2, 3; the first two precede attempts 2 and 3, the last precedes the fatal
promotion (there is no attempt 4). -/
theorem downloadLoop_retry_schedule (retryDelay retryBackoff : ℕ)
    (outcome : ℕ → Option String) (hfail : ∀ k, outcome k ≠ none)
    (attempts : List ℕ) :
    downloadLoop retryDelay retryBackoff outcome (fun _ => false) false attempts =
      (attempts.flatMap fun k =>
        [WorkerEv.attemptStart k, WorkerEv.retryEv k,
         WorkerEv.sleep (retryDelay + retryBackoff * (k - 1))]) ++
      [WorkerEv.fatalError, WorkerEv.closeEv] := by
  induction attempts with
  | nil => simp [downloadLoop]
  | cons k rest ih =>
      obtain ⟨e, he⟩ : ∃ e, outcome k = some e := by
        cases h : outcome k
        · exact absurd h (hfail k)
        · exact ⟨_, rfl⟩
      simp [downloadLoop, he, ih]

/-- C7 witness: the schedule theorem at `retryDelay = 2000,
retryBackoff = 3000, maxRetry = 3` gives the sleeps 2000, 5000, 8000. -/
theorem downloadLoop_retry_schedule_witness :
    downloadLoop 2000 3000 (fun _ => some "err") (fun _ => false) false (_attempts 3) =
      [WorkerEv.attemptStart 1, WorkerEv.retryEv 1, WorkerEv.sleep 2000,
       WorkerEv.attemptStart 2, WorkerEv.retryEv 2, WorkerEv.sleep 5000,
       WorkerEv.attemptStart 3, WorkerEv.retryEv 3, WorkerEv.sleep 8000,
       WorkerEv.fatalError, WorkerEv.closeEv] :=
  (downloadLoop_retry_schedule 2000 3000 (fun _ => some "err")
      (fun _ => Option.some_ne_none _) (_attempts 3)).trans (by decide)

/-- C7 counterexample: with `maxRetry = 3` there are exactly three
attempts.  The all-fail trace contains the 8000 ms sleep but no
`attemptStart 4`: the claimed sleeps "before attempts 2, 3 and 4" are
wrong — the final sleep precedes the fatal promotion, not a fourth
attempt. -/
theorem downloadLoop_no_attempt_4 :
    WorkerEv.sleep 8000 ∈
        downloadLoop 2000 3000 (fun _ => some "err") (fun _ => false) false (_attempts 3) ∧
    WorkerEv.attemptStart 4 ∉
        downloadLoop 2000 3000 (fun _ => some "err") (fun _ => false) false (_attempts 3) := by
  decide

/-! ### Claim C6: destroy, close, and finality -/

lemma destroyCalls_destroyed (n : ℕ) :
    destroyCalls n { destroyed := true } = [] := by
  induction n with
  | zero => rfl
  | succ m ih => simp [destroyCalls, destroyCall, ih]

/-- C6 (amended): `destroy()` is idempotent — a second call is a no-op and
emits nothing — and `close` is emitted at most once per session: `n`
successive `destroy()` calls emit `[close]` for every `n ≥ 1` and nothing
for `n = 0`.  (That `close` is always emitted and final does not hold: the
`ignore` path emits no `close` at all, and a worker can emit a fatal error
after `close` — see the counterexample.) -/
theorem destroy_idempotent_close_once (n : ℕ) :
    destroyCalls n { destroyed := false } =
      (if n = 0 then [] else [WorkerEv.closeEv]) ∧
    destroyCall ((destroyCall { destroyed := false }).1) =
      ((destroyCall { destroyed := false }).1, []) := by
  constructor
  · cases n with
    | zero => rfl
    | succ m =>
        show (destroyCall { destroyed := false }).2 ++
            destroyCalls m (destroyCall { destroyed := false }).1 = _
        rw [show (destroyCall { destroyed := false }) =
            ({ destroyed := true }, [WorkerEv.closeEv]) from rfl]
        rw [destroyCalls_destroyed]
        simp
  · rfl

/-- C6 counterexample: an execution where `close` is not the final event.
The user calls `destroy()` while the worker sleeps after its last failed
attempt: that `destroy()` emits `close` (first conjunct).  The worker's
post-wait checkpoints all saw `destroyed = false`; the flag became true
only during the final 8000 ms sleep (`destroyedFinal = true`), so the loop
exhausts and the unguarded line 312 still emits the fatal `error` — after
`close` — while the worker's own `destroy()` is a no-op (no second
`close`). -/
theorem error_emitted_after_close :
    destroyCall { destroyed := false } = ({ destroyed := true }, [WorkerEv.closeEv]) ∧
    downloadLoop 2000 3000 (fun _ => some "err") (fun _ => false) true (_attempts 3) =
      [WorkerEv.attemptStart 1, WorkerEv.retryEv 1, WorkerEv.sleep 2000,
       WorkerEv.attemptStart 2, WorkerEv.retryEv 2, WorkerEv.sleep 5000,
       WorkerEv.attemptStart 3, WorkerEv.retryEv 3, WorkerEv.sleep 8000,
       WorkerEv.fatalError] := by
  decide

/-! ### Claim C8: redirect status classification -/

/-- C8 (amended): for every HEAD response whose status code is *strictly
between 300 and 400* (the code tests `statusCode > 300 && statusCode <
400`, so 300 itself is excluded): with headers present, a `location`
header makes the resolver continue at that location, and a missing
`location` fails with an error naming the status. -/
theorem redirectStep_3xx (address currentAddress : String) (r : HeadResult)
    (h1 : 300 < r.statusCode) (h2 : r.statusCode < 400)
    (h : HeadHeaders) (hh : r.headers = some h) :
    (∀ loc, h.location = some loc →
       followRedirectStep address currentAddress r = .redirect loc) ∧
    (h.location = none →
       followRedirectStep address currentAddress r =
         .failed ("HTTP Response code is " ++ toString r.statusCode ++
           " but \"location\" is not in headers")) := by
  have hne : ¬ (r.statusCode = 200 ∨ r.statusCode = 206) := by omega
  constructor
  · intro loc hl
    simp [followRedirectStep, hne, h1, h2, hh, hl]
  · intro hl
    simp [followRedirectStep, hne, h1, h2, hh, hl]

/-- C8 witness: the amended theorem at a concrete 302 with and without a
`location` header. -/
theorem redirectStep_3xx_witness :
    followRedirectStep "u0" "u0"
        { statusCode := 302, headers := some { location := some "u1" } } =
      .redirect "u1" :=
  (redirectStep_3xx "u0" "u0"
      { statusCode := 302, headers := some { location := some "u1" } }
      (by decide) (by decide) { location := some "u1" } rfl).1 "u1" rfl

/-- C8 counterexample: status 300 is in the 3xx class and carries a
`location` header, yet the resolver does not follow it — the branch tests
`statusCode > 300`, so a first-hop 300 falls through to the generic
failure. -/
theorem redirect_300_not_followed :
    followRedirectStep "u0" "u0"
        { statusCode := 300, headers := some { location := some "u1" } } =
      .failed "Got HTTP Response code 300" ∧
    followRedirectStep "u0" "u0"
        { statusCode := 300, headers := some { location := some "u1" } } ≠
      .redirect "u1" := by
  constructor
  · rfl
  · intro h
    simp [followRedirectStep] at h

/-! ### Claim C10: unguarded speed division -/

/-- C10 (confirmed): the `_report` speed computations divide by
`now - reference_time` with no zero guard.  In the execution where a
chunk's reference snapshot was taken at tick 100 (a `data` event) and the
chunk completes within the same millisecond, `_onChunkCompleted` forces a
report at `now = 100`: the payload delivered to `progress` listeners
carries a non-finite speed (`none`, modelling Infinity/NaN) both for the
chunk and for the total. -/
theorem report_forced_same_tick_nonfinite_speed :
    ∃ st : ReportState, ∃ payload : ProgressPayload,
      (_report 2500 true st 0 true 100).2 = some payload ∧
      (payload.details 0).speed = none ∧ payload.total.speed = none := by
  refine ⟨{ partsSpeedRef := fun _ => some { bytes := 0, time := 100 },
            speedRef := { bytes := 0, time := 100 },
            partsProgress := fun _ => { speed := some 0, bytes := 500, percentage := 50 },
            totalProgress := { speed := some 0, bytes := 500, percentage := 50 } },
          _, rfl, rfl, rfl⟩

/-! ### Claim C5: the `ignore` path emits nothing -/

/-- C5 evaluation (the claim is right, the code is wrong): with
`existBehavior = "ignore"` and an existing destination file, `_ensureDest`
nulls `savedFilePath`, and `_start` then *returns without emitting
anything* (src/lib/index.js:387-388): no `close`, no `end`, no `error`.
The session never terminates observably — `destroy()` is the only place
that emits `close`, and it is never called on this path. -/
theorem start_ignore_emits_nothing :
    _ensureDest (fun s => if s = "file.bin" then some { isDirectory := false } else none)
        id id .ignore 2 (some "file.bin") = none ∧
    _start 5 16384 .ignore
        (fun s => if s = "file.bin" then some { isDirectory := false } else none)
        id id 2 "file.bin" true
        (.ok { contentLength := some 1000, acceptRangesBytes := true })
        (fun _ => none) true =
      (([] : List StartEv), .ignored) := by
  decide

/-! ### Claim C9: tiny files in parallel mode -/

/-- C9 (confirmed): for `1 ≤ size < connections` (parallel mode, any
positive fixed chunk size) the shrink branch sets the chunk size to
`⌊size / connections⌋ = 0`, the chunk-count division by zero makes
`Array(n)` throw (`_calcRanges` = `none`), and `_start` always catches the
exception, emits `error` and destroys the session (emitting `close`)
instead of producing a plan. -/
theorem start_small_file_fails (s connections cs0 : ℕ) (hs : 1 ≤ s)
    (hlt : s < connections) (hcs : 1 ≤ cs0)
    (behavior : ExistBehavior) (stat : String → Option FsStat)
    (joinBase copyName : String → String) (fuel : ℕ) (dest p : String)
    (hdest : _ensureDest stat joinBase copyName behavior fuel (some dest) = some p)
    (disk : ℕ → Option ℕ) (hml : Bool) :
    effChunkSize s connections cs0 = 0 ∧
    _calcRanges s connections cs0 = none ∧
    _start connections cs0 behavior stat joinBase copyName fuel dest true
        (.ok { contentLength := some s, acceptRangesBytes := true }) disk hml =
      ([StartEv.errorEv, StartEv.closeEv], .failed) := by
  have heff : effChunkSize s connections cs0 = 0 := by
    rw [effChunkSize, if_pos]
    · exact Nat.div_eq_of_lt hlt
    · calc s < connections := hlt
        _ ≤ connections * cs0 := Nat.le_mul_of_pos_right connections (by omega)
  have hcalc : _calcRanges s connections cs0 = none := by
    rw [_calcRanges, if_pos heff]
  have hc1 : connections ≠ 1 := by omega
  refine ⟨heff, hcalc, ?_⟩
  simp [_start, hdest, hc1, hcalc]

/-- C9 witness: a 1-byte file with 2 connections and chunk size 1. -/
theorem start_small_file_fails_witness :
    effChunkSize 1 2 1 = 0 ∧ _calcRanges 1 2 1 = none ∧
    _start 2 1 .new_file (fun _ => none) id id 1 "f" true
        (.ok { contentLength := some 1, acceptRangesBytes := true })
        (fun _ => none) false =
      ([StartEv.errorEv, StartEv.closeEv], .failed) :=
  start_small_file_fails 1 2 1 (by decide) (by decide) (by decide) .new_file
    (fun _ => none) id id 1 "f" "f" rfl (fun _ => none) false

end EasyDl
